import Mathlib

/-!
Verification development for the analytics/reporting utility layer of
opentaps SEAS (`opentaps_seas/core/utils.py`).

Python strings are embedded as `List Char`, UTC instants as `Int`
(seconds), store timestamps as `Nat` (epoch milliseconds), and Python
floats as exact rationals (`Rat`).  Fallible Python code (code that can
raise) is embedded with `Option`: `none` is an exception propagating to
the caller.  External collaborators (the `dateutil` date parser, the
CrateDB store, `datetime` formatting) are parameters of the embedded
functions.
-/

namespace OpentapsSeas

/-! ## Python string primitives -/

/-- Embeds the Python slice `s[-n:]` (the last `n` characters, or all of
`s` when `s` is shorter than `n`). -/
def pySuffix (n : Nat) (s : List Char) : List Char :=
  s.drop (s.length - n)

/-- Embeds the Python slice `s[:-n]` (everything except the last `n`
characters). -/
def pyDropSuffix (n : Nat) (s : List Char) : List Char :=
  s.take (s.length - n)

/-- Embeds the Python builtin `int()` on the digit part: `none` when some
character is not a decimal digit (Python raises `ValueError` there), the
accumulated value otherwise.  The accumulator mirrors positional
notation. -/
def parseDigitsAux : List Char → Nat → Option Nat
  | [], acc => some acc
  | c :: cs, acc =>
      if c.isDigit then parseDigitsAux cs (10 * acc + (c.toNat - 48)) else none

/-- Embeds the Python builtin `int()` on an unsigned decimal string:
fails on the empty string and on any non-digit character. -/
def parseDigits (s : List Char) : Option Nat :=
  if s = [] then none else parseDigitsAux s 0

/-- Numeric value of an all-digit string (total companion of
`parseDigits`, used to state its result). -/
def digitsVal (s : List Char) : Nat :=
  s.foldl (fun a c => 10 * a + (c.toNat - 48)) 0

/-- Embeds the Python builtin `int()` as used by `get_point_values` on
range-token prefixes: an optional sign followed by decimal digits.
(Python `int()` also strips surrounding whitespace; the tokens of the
range grammar never carry any, so that case is not modelled.) -/
def parsePyInt (s : List Char) : Option Int :=
  match s with
  | [] => none
  | c :: rest =>
      if c = '-' then (parseDigits rest).map (fun n => -(Int.ofNat n))
      else if c = '+' then (parseDigits rest).map (fun n => Int.ofNat n)
      else (parseDigits (c :: rest)).map (fun n => Int.ofNat n)

/-! ## Time units

Instants are embedded as `Int` seconds; `timedelta(days = n)` is
`n * day`, and so on. -/

/-- Seconds in a day (`timedelta(days=1)`). -/
def day : Int := 86400

/-- Seconds in an hour (`timedelta(hours=1)`). -/
def hour : Int := 3600

/-- Seconds in a minute (`timedelta(minutes=1)`). -/
def minute : Int := 60

/-! ## Range resolver (`get_point_values`, utils.py lines 173-211) -/

/-- Source constant `DEFAULT_RANGE = '24h'`. -/
def DEFAULT_RANGE : List Char := "24h".data

/-- Source constant `DEFAULT_RES = 'minute'`. -/
def DEFAULT_RES : List Char := "minute".data

/-- Embeds the `date_trunc` validation of `get_point_values` (utils.py
lines 181-182): a granularity outside day/hour/minute/second silently
becomes `DEFAULT_RES`. -/
def validate_date_trunc (date_trunc : List Char) : List Char :=
  if date_trunc ∈ [("day".data), ("hour".data), ("minute".data), ("second".data)]
    then date_trunc else DEFAULT_RES

/-- Embeds the range-token conversion of `get_point_values` (utils.py
lines 189-211) for a token already known to be non-empty: the ordered
`elif` chain of suffix checks, falling through to the explicit
`<date>` / `<date>,<date>` form split on a comma.  `parse_datetime` is
the external `dateutil` parser (a parameter of the embedding); `none`
anywhere is a Python exception propagating to the caller. -/
def resolveRangeConv (parse_datetime : List Char → Option Int)
    (trange : List Char) (now : Int) : Option (Int × Int) :=
  if trange = ("today".data) then
    some (now - day, now)
  else if trange = ("yesterday".data) then
    some (now - 2 * day, now - day)
  else if trange.length > 7 ∧ pySuffix 7 trange = (" months".data) then
    (parsePyInt (pyDropSuffix 7 trange)).map (fun n => (now - 30 * n * day, now))
  else if trange.length > 6 ∧ pySuffix 6 trange = (" month".data) then
    (parsePyInt (pyDropSuffix 6 trange)).map (fun n => (now - 30 * n * day, now))
  else if trange.length > 5 ∧ pySuffix 5 trange = (" days".data) then
    (parsePyInt (pyDropSuffix 5 trange)).map (fun n => (now - n * day, now))
  else if trange.length > 1 ∧ pySuffix 1 trange = ("h".data) then
    (parsePyInt (pyDropSuffix 1 trange)).map (fun n => (now - n * hour, now))
  else if trange.length > 1 ∧ pySuffix 1 trange = ("m".data) then
    (parsePyInt (pyDropSuffix 1 trange)).map (fun n => (now - n * minute, now))
  else
    match trange.splitOn ',' with
    | [] => none
    | d0 :: rest =>
        match parse_datetime d0 with
        | none => none
        | some s =>
            match rest with
            | [] => some (s, now)
            | d1 :: _ =>
                match parse_datetime d1 with
                | none => none
                | some e => some (s, e)

/-- Embeds the full range handling of `get_point_values` (utils.py lines
186-211): an empty (falsy) token is first replaced by `DEFAULT_RANGE`,
then the token is converted. -/
def resolveRange (parse_datetime : List Char → Option Int)
    (trange : List Char) (now : Int) : Option (Int × Int) :=
  resolveRangeConv parse_datetime (if trange = [] then DEFAULT_RANGE else trange) now

/-- Disjunction of the guards of the seven relative branches of the
range conversion, as a Boolean: `false` exactly when a token falls
through to the explicit-date branch. -/
def isRelTok (t : List Char) : Bool :=
  decide (t = ("today".data)) || decide (t = ("yesterday".data)) ||
  (decide (t.length > 7) && decide (pySuffix 7 t = (" months".data))) ||
  (decide (t.length > 6) && decide (pySuffix 6 t = (" month".data))) ||
  (decide (t.length > 5) && decide (pySuffix 5 t = (" days".data))) ||
  (decide (t.length > 1) && decide (pySuffix 1 t = ("h".data))) ||
  (decide (t.length > 1) && decide (pySuffix 1 t = ("m".data)))

/-! ## Python values -/

/-- Embeds the Python values flowing through the reviewed code: `None`,
strings, ints and floats (floats as exact rationals) and booleans. -/
inductive PyVal where
  | vnone
  | vstr (s : List Char)
  | vint (n : Int)
  | vnum (q : Rat)
  | vbool (b : Bool)
deriving DecidableEq

/-- Embeds Python truthiness for the values above (`bool(x)`): `None`,
the empty string, `0` and `False` are falsy. -/
def PyVal.truthy : PyVal → Bool
  | .vnone => false
  | .vstr s => !s.isEmpty
  | .vint n => decide (n ≠ 0)
  | .vnum q => decide (q ≠ 0)
  | .vbool b => b

/-- Embeds the Python builtin `round()` to an integer: round half to
even (banker's rounding), as Python does.  Written on the numerator and
denominator of the exact rational: `n` is the floor, `r` the remainder,
and the fractional part `r / den` is compared with one half via
`2 r` versus `den`. -/
def pyRound (x : Rat) : Int :=
  let n := Int.fdiv x.num (x.den : Int)
  let r := x.num - n * (x.den : Int)
  if 2 * r < (x.den : Int) then n
  else if (x.den : Int) < 2 * r then n + 1
  else if n % 2 = 0 then n else n + 1

/-! ## Point metadata (`PointView` rows of the metadata store) -/

/-- Embeds the fields of a `PointView` record used by the reviewed code:
string fields are `List Char`, `unit` is optional, `m_tags` is the list
of marker tags and `kv_tags` the key-value tag mapping (an association
list with unique keys, as a Python dict). -/
structure PointView where
  entity_id : List Char
  topic : List Char
  kind : List Char
  unit : Option (List Char)
  equipment_id : List Char
  m_tags : List (List Char)
  kv_tags : List (List Char × List Char)
deriving DecidableEq

/-- Embeds the Python test `'Number' == d.kind`. -/
def pointIsNumber (d : PointView) : Bool := decide (d.kind = ("Number".data))

/-- Embeds the Python test `'Bool' == d.kind`. -/
def pointIsBool (d : PointView) : Bool := decide (d.kind = ("Bool".data))

/-! ## Row processing of `get_point_values` (utils.py lines 228-247) -/

/-- Embeds one fetched row of the `get_point_values` query: `ts` is
`result[0]` (epoch milliseconds), `value` is `result[1]` (the
aggregated/raw value column), `agg` is `result[2]` (the numeric
aggregate, present on the Bool query shape; NULL aggregates, on which
the Python `round` would raise, are outside the model). -/
structure DataRow where
  ts : Nat
  value : PyVal
  agg : Rat
deriving DecidableEq

/-- Embeds the Bool decoding of `get_point_values` (utils.py lines
235-239): `if value and (value == 't' or value != '0'): value = 1`
`else: value = round(result[2])`. -/
def boolValue (value : PyVal) (agg : Rat) : PyVal :=
  if PyVal.truthy value = true ∧
      (value = PyVal.vstr ("t".data) ∨ value ≠ PyVal.vstr ("0".data))
    then PyVal.vint 1
    else PyVal.vint (pyRound agg)

/-- Embeds the timestamp conversion of `get_point_values` (utils.py line
242): `datetime.utcfromtimestamp(ts // 1000).replace(microsecond=0)`,
represented by its epoch seconds. -/
def tsToDatetimeSec (ts : Nat) : Nat := ts / 1000

/-- Embeds one iteration of the fetch loop of `get_point_values` (utils.py
lines 233-243): Bool decoding first, then the optional
`ts_as_datetime` conversion. -/
def processRow (is_bool : Bool) (ts_as_datetime : Bool) (r : DataRow) : Nat × PyVal :=
  let value := if is_bool then boolValue r.value r.agg else r.value
  let ts := if ts_as_datetime then tsToDatetimeSec r.ts else r.ts
  (ts, value)

/-- Embeds the SQL text built by `get_point_values` (utils.py lines
215-226), with the whitespace of the Python triple-quoted literals
collapsed; the `date_trunc` and `value_func` strings are interpolated as
in the source `format` calls. -/
def buildSql (is_number is_bool : Bool) (date_trunc value_func : List Char) : List Char :=
  if is_number then
    ("SELECT DATE_TRUNC('".data) ++ date_trunc ++ ("', ts) as timest, ".data) ++
      value_func ++
      ("(double_value) FROM \"volttron\".\"data\" WHERE topic = ? AND ts > ? AND ts <= ? GROUP BY timest ORDER BY timest DESC;".data)
  else if is_bool then
    ("SELECT DATE_TRUNC('".data) ++ date_trunc ++ ("', ts) as timest, MIN(string_value), ".data) ++
      value_func ++
      ("(double_value) FROM \"volttron\".\"data\" WHERE topic = ? AND ts > ? AND ts <= ? GROUP BY timest ORDER BY timest DESC;".data)
  else
    ("SELECT ts, string_value FROM \"volttron\".\"data\" WHERE topic = ? AND ts > ? AND ts <= ? ORDER BY ts DESC;".data)

/-- Embeds `get_point_values` (utils.py lines 177-247) as a run over an
explicit store.  `store` maps the executed SQL text and its parameter
tuple to the fetched rows (`none` is a store/transport exception).  The
first component of the result is the returned data (`none` is an
exception propagating to the caller); the second records whether
`conn.close()` (line 246) was executed before the function exited.  The
connection is opened unconditionally on entry (line 178) and the source
has no `try/finally`, so an exception raised by the range conversion or
by the query exits before the close. -/
def get_point_values_run
    (parse_datetime : List Char → Option Int)
    (store : List Char → List Char × Int × Int → Option (List DataRow))
    (d : PointView) (date_trunc value_func trange : List Char)
    (ts_as_datetime : Bool) (now : Int) :
    Option (List (Nat × PyVal)) × Bool :=
  let date_trunc := validate_date_trunc date_trunc
  let is_number := pointIsNumber d
  let is_bool := pointIsBool d
  match resolveRange parse_datetime trange now with
  | none => (none, false)
  | some (tstart, tend) =>
      let sql := buildSql is_number is_bool date_trunc value_func
      match store sql (d.topic, tstart, tend) with
      | none => (none, false)
      | some rows =>
          (some ((rows.map (processRow is_bool ts_as_datetime)).reverse), true)

/-! ## AHU metric/role resolver (`get_ahu_current_values`, utils.py lines 128-170) -/

/-- Embeds one entry of the role catalog `q` of `get_ahu_current_values`:
the required tags (`'has'`) and the optional excluded tags
(`'exclude'`). -/
structure Role where
  has : List (List Char)
  exclude : Option (List (List Char))
deriving DecidableEq

/-- Embeds the candidate computation of `get_ahu_current_values` (utils.py
lines 157-159): `data_points.filter(m_tags__contains=t['has'])`, then
`exclude(m_tags__overlap=t['exclude'])` when an exclusion set is
present. -/
def roleCandidates (data_points : List PointView) (t : Role) : List PointView :=
  let p := data_points.filter (fun x => t.has.all (fun tag => decide (tag ∈ x.m_tags)))
  match t.exclude with
  | some ex => p.filter (fun x => !ex.any (fun tag => decide (tag ∈ x.m_tags)))
  | none => p

/-- Order used by `pl.sort(key=lambda x: len(x.m_tags))`. -/
def tagLenLe (a b : PointView) : Prop := a.m_tags.length ≤ b.m_tags.length

instance : DecidableRel tagLenLe :=
  fun a b => Nat.decLe a.m_tags.length b.m_tags.length

instance : IsTotal PointView tagLenLe :=
  ⟨fun a b => Nat.le_total a.m_tags.length b.m_tags.length⟩

instance : IsTrans PointView tagLenLe := ⟨fun _ _ _ => Nat.le_trans⟩

/-- Embeds the per-role selection of `get_ahu_current_values` (utils.py
lines 160-169): an empty candidate set selects nothing (the role is
omitted); with more than one candidate the list is stably sorted by
ascending `len(m_tags)`; the first element `p[0]` of the (possibly
sorted) list is selected.  Python `list.sort` is a stable sort, so it is
embedded by the stable `List.insertionSort`. -/
def selectRolePoint (data_points : List PointView) (t : Role) : Option PointView :=
  let p := roleCandidates data_points t
  if 0 < p.length then
    if 1 < p.length then (List.insertionSort tagLenLe p).head?
    else p.head?
  else none

/-- Embeds the fixed role catalog `q` of `get_ahu_current_values` (utils.py
lines 137-153), in source order. -/
def ahuCatalog : List (List Char × Role) :=
  [(("Space Air Temp".data),
      { has := [("air".data), ("his".data), ("point".data), ("sensor".data), ("temp".data)],
        exclude := some [("mixed".data), ("discharge".data), ("return".data), ("outside".data)] }),
   (("Return Air Temp".data),
      { has := [("air".data), ("his".data), ("point".data), ("sensor".data), ("temp".data), ("return".data)],
        exclude := none }),
   (("Supply Fan Speed".data),
      { has := [("air".data), ("his".data), ("point".data), ("sensor".data), ("fan".data), ("speed".data), ("discharge".data)],
        exclude := none }),
   (("Cooling".data),
      { has := [("his".data), ("point".data), ("sensor".data), ("cooling".data)],
        exclude := some [("heat".data)] }),
   (("Heating".data),
      { has := [("his".data), ("point".data), ("sensor".data), ("heat".data)],
        exclude := some [("cooling".data)] }),
   (("CO2".data),
      { has := [("his".data), ("point".data), ("sensor".data), ("co2".data), ("zone".data)],
        exclude := none })]

/-- Embeds the selection skeleton of `get_ahu_current_values` (utils.py
lines 154-170): the equipment's points are the `PointView` rows filtered
by `equipment_id`, and each catalog role with a selected point
contributes one entry to the result.  (The source then decorates each
selected point with its current value via `add_current_values`; the
decoration does not affect which point is selected and is elided
here.) -/
def get_ahu_points (all_points : List PointView) (equipment_id : List Char) :
    List (List Char × PointView) :=
  let data_points := all_points.filter (fun x => decide (x.equipment_id = equipment_id))
  ahuCatalog.filterMap (fun nt => (selectRolePoint data_points nt.2).map (fun p => (nt.1, p)))

/-! ## Current-value decorator (utils.py lines 46-125) -/

/-- Embeds one row of the `volttron.data` time-series table as read by
the current-value query: the channel key, the epoch-millisecond
timestamp and the (nullable) `string_value` column. -/
structure Reading where
  topic : List Char
  ts : Nat
  string_value : Option (List Char)
deriving DecidableEq

/-- Embeds the query of `get_current_value_dict` (utils.py lines 60-62):
`SELECT ts, string_value ... WHERE topic = ? ORDER BY ts DESC LIMIT 1`.
Rows with the topic are ordered by descending timestamp (ties in store
order) and the first row, if any, is fetched. -/
def queryLatestReading (store : List Reading) (topic : List Char) : Option Reading :=
  (List.insertionSort (fun a b => b.ts ≤ a.ts)
    (store.filter (fun r => decide (r.topic = topic)))).head?

/-- Embeds Python truthiness of an optional string (`if point.unit:`
style guards): `None` and the empty string are falsy. -/
def optTruthy : Option (List Char) → Bool
  | none => false
  | some s => !s.isEmpty

/-- Converts a nullable string column value to the embedded Python
value. -/
def toPyValStr : Option (List Char) → PyVal
  | none => PyVal.vnone
  | some s => PyVal.vstr s

/-- Embeds the dictionary returned by `get_current_value_dict` (utils.py
lines 66-87): `unit := none` when the `'unit'` key is absent. -/
structure CurrentValue where
  value : PyVal
  epoch : Nat
  time : List Char
  fmttime : List Char
  unit : Option (List Char)
deriving DecidableEq

/-- Embeds `get_current_value_dict` (utils.py lines 53-87) over an
explicit store.  `fmt_epoch` is the calendar rendering of `format_epoch`
(utils.py lines 46-50), whose `datetime`/`strftime` internals are
external: it maps the epoch to the `(time, fmttime)` strings.
`float_format_temp` is the `try: float(...); format(v, '.1f')` block of
lines 78-83: `some s` is a successful reformat, `none` is the exception
swallowed by `except: pass` (the original string is kept).  The result
is `none` (Python `None`) when the store has no row for the topic. -/
def get_current_value_dict
    (store : List Reading)
    (fmt_epoch : Nat → List Char × List Char)
    (float_format_temp : Option (List Char) → Option (List Char))
    (point : PointView) : Option CurrentValue :=
  match queryLatestReading store point.topic with
  | none => none
  | some r =>
      let epoch := r.ts
      let string_value := r.string_value
      let time := (fmt_epoch epoch).1
      let fmttime := (fmt_epoch epoch).2
      if pointIsBool point then
        some { value := PyVal.vbool (decide (string_value = some ("t".data)) ||
                                     decide (string_value ≠ some ("0".data))),
               epoch := epoch, time := time, fmttime := fmttime, unit := none }
      else
        let string_value :=
          if pointIsNumber point = true ∧
              (point.unit = some ("°F".data) ∨ point.unit = some ("°C".data)) then
            match float_format_temp string_value with
            | some s => some s
            | none => string_value
          else string_value
        if optTruthy point.unit then
          some { value := toPyValStr string_value, epoch := epoch,
                 time := time, fmttime := fmttime, unit := point.unit }
        else
          some { value := toPyValStr string_value, epoch := epoch,
                 time := time, fmttime := fmttime, unit := none }

/-- Left brace character (written by code point to keep it out of the
source text). -/
def lbrace : Char := Char.ofNat 123

/-- Right brace character. -/
def rbrace : Char := Char.ofNat 125

/-- Embeds the brace stripping of `get_current_value` (utils.py lines
99-100): applied only when the value is a string containing a left
brace; `replace` removes every brace. -/
def stripBraces (v : PyVal) : PyVal :=
  match v with
  | .vstr s =>
      if lbrace ∈ s then
        .vstr (s.filter (fun c => !(c == lbrace || c == rbrace)))
      else .vstr s
  | v => v

/-- Embeds the Python `str()` rendering `%s` applies to the values that
reach the formatter of `get_current_value`. -/
def pyStr : PyVal → List Char
  | .vnone => "None".data
  | .vstr s => s
  | .vint n => (toString n).data
  | .vnum q => (toString q).data
  | .vbool b => if b then "True".data else "False".data

/-- Embeds `get_current_value` with `raw=False` (utils.py lines 90-110):
`None` when the dictionary is `None`, otherwise the formatted HTML
string (the HTML escaping of django `format_html` is modelled as plain
interpolation). -/
def get_current_value
    (store : List Reading)
    (fmt_epoch : Nat → List Char × List Char)
    (float_format_temp : Option (List Char) → Option (List Char))
    (point : PointView) : Option (List Char) :=
  match get_current_value_dict store fmt_epoch float_format_temp point with
  | none => none
  | some d =>
      let value := stripBraces d.value
      if pointIsBool point then
        some (("<b>".data) ++ pyStr value ++ ("</b> as of <my-datetime value=\"".data) ++
          d.time ++ ("\">".data) ++ d.fmttime ++ ("</my-datetime>".data))
      else if optTruthy point.unit then
        some (("<b>".data) ++ pyStr value ++ ("</b> ".data) ++ d.unit.getD [] ++
          (" as of <my-datetime value=\"".data) ++ d.time ++ ("\">".data) ++
          d.fmttime ++ ("</my-datetime>".data))
      else
        some (("<b>".data) ++ pyStr value ++ ("</b> as of <my-datetime value=\"".data) ++
          d.time ++ ("\">".data) ++ d.fmttime ++ ("</my-datetime>".data))

/-- Embeds `add_current_values` with `raw=False` (utils.py lines
113-125): each point is paired with its rendered current value, and a
falsy current value (the `None` of a topic with no reading; the rendered
strings are never empty) is replaced by the literal marker string
`'N/A'`. -/
def add_current_values
    (store : List Reading)
    (fmt_epoch : Nat → List Char × List Char)
    (float_format_temp : Option (List Char) → Option (List Char))
    (data : List PointView) : List (PointView × List Char) :=
  data.map (fun d =>
    (d, match get_current_value store fmt_epoch float_format_temp d with
        | none => ("N/A".data)
        | some cv => cv))

/-! ## Tag report builder (`get_topics_tags_report`, utils.py lines 250-303) -/

/-- Embeds one `Topic` record together with its related point
(`topic.get_related_point()`), `none` when there is no related point. -/
structure TopicRec where
  topic : List Char
  point : Option PointView
deriving DecidableEq

/-- Embeds the header-accumulation idiom of the first report loop:
append each key that is not already in the header, in order.  (`for key
in keys: if key not in report_header: report_header.append(key)`.) -/
def addNew (hdr : List (List Char)) (keys : List (List Char)) : List (List Char) :=
  keys.foldl (fun h k => if k ∈ h then h else h ++ [k]) hdr

/-- Embeds one iteration of the `report_header` accumulation of the
first loop of `get_topics_tags_report` (utils.py lines 256-273): for a
topic with a related point, the unseen `kv_tags` keys and then the
unseen `m_tags` members are appended, each behind the source's
truthiness guard. -/
def collectHeaderStep (hdr : List (List Char)) (t : TopicRec) : List (List Char) :=
  match t.point with
  | none => hdr
  | some p =>
      let hdr := if p.kv_tags ≠ [] then addNew hdr (p.kv_tags.map Prod.fst) else hdr
      if p.m_tags ≠ [] then addNew hdr p.m_tags else hdr

/-- Embeds the `report_header` accumulation of the first loop of
`get_topics_tags_report` (utils.py lines 256-273).  (The source
interleaves this accumulation with the `topics_tags` accumulation in a
single loop; the two accumulators do not interact, so they are split
into `collectHeader` and `buildTopicsTags` computing the same
values.) -/
def collectHeader (topics : List TopicRec) : List (List Char) :=
  topics.foldl collectHeaderStep []

/-- Embeds the per-topic `topic_tags` dictionary stored into
`topics_tags`: the `'kv_tags'` / `'m_tags'` keys are present exactly
when the corresponding tags were truthy. -/
structure TopicTags where
  kv_tags : Option (List (List Char × List Char))
  m_tags : Option (List (List Char))
deriving DecidableEq

/-- Embeds one iteration of the `topics_tags` accumulation of the first
loop of `get_topics_tags_report` (utils.py lines 256-276): a topic is
recorded exactly when it has a related point and `tags_exists` was set,
i.e. its point has truthy `kv_tags` or truthy `m_tags`; the stored
dictionary has the `'kv_tags'` / `'m_tags'` keys exactly for the truthy
ones. -/
def buildTopicsTagsStep (tts : List (List Char × TopicTags)) (t : TopicRec) :
    List (List Char × TopicTags) :=
  match t.point with
  | none => tts
  | some p =>
      let kv := if p.kv_tags ≠ [] then some p.kv_tags else none
      let m := if p.m_tags ≠ [] then some p.m_tags else none
      if p.kv_tags ≠ [] ∨ p.m_tags ≠ [] then tts ++ [(t.topic, ⟨kv, m⟩)] else tts

/-- Embeds the `topics_tags` accumulation of the first loop of
`get_topics_tags_report` (utils.py lines 256-276).  The Python dict is
embedded as an association list in insertion order. -/
def buildTopicsTags (topics : List TopicRec) : List (List Char × TopicTags) :=
  topics.foldl buildTopicsTagsStep []

/-- Embeds `topics_tags.get(topic.topic)` (a dict lookup). -/
def dictGet (k : List Char) (l : List (List Char × TopicTags)) : Option TopicTags :=
  (l.find? (fun e => decide (e.1 = k))).map (fun e => e.2)

/-- Embeds `tag in kv_tags.keys()` / `kv_tags[tag]` on the key-value tag
dictionary. -/
def kvGet (tag : List Char) (kv : List (List Char × List Char)) : Option (List Char) :=
  (kv.find? (fun e => decide (e.1 = tag))).map (fun e => e.2)

/-- Embeds Python string comparison `<=`: lexicographic by code point,
with a proper prefix comparing as smaller. -/
def lexLe : List Char → List Char → Bool
  | [], _ => true
  | _ :: _, [] => false
  | a :: as, b :: bs => if a < b then true else if b < a then false else lexLe as bs

/-- Propositional form of `lexLe`, the order used to embed Python
`sorted` on strings. -/
def lexLeP (a b : List Char) : Prop := lexLe a b = true

instance : DecidableRel lexLeP := fun a b => instDecidableEqBool (lexLe a b) true

/-- Embeds one row of the second loop of `get_topics_tags_report`
(utils.py lines 280-300), built against the sorted tag header (without
the `topic` column, which is inserted only after the rows are built). -/
def buildRow (report_header : List (List Char))
    (topics_tags : List (List Char × TopicTags)) (t : TopicRec) : List (List Char) :=
  match dictGet t.topic topics_tags with
  | none => t.topic :: List.replicate report_header.length []
  | some tt =>
      let kv_tags := tt.kv_tags.getD []
      let m_tags := tt.m_tags.getD []
      if kv_tags ≠ [] ∨ m_tags ≠ [] then
        t.topic :: report_header.map (fun tag =>
          if kv_tags ≠ [] ∧ (kvGet tag kv_tags).isSome = true then (kvGet tag kv_tags).getD []
          else if m_tags ≠ [] ∧ tag ∈ m_tags then ("X".data)
          else [])
      else t.topic :: [[]]

/-- Embeds `get_topics_tags_report` (utils.py lines 250-303): the header
tags are collected in iteration order, sorted (Python `sorted`, embedded
by the stable `insertionSort` under `lexLeP`), the rows are built
against the sorted tag list, and the fixed `topic` column is prepended
to the header last.  Returns `(report_rows, report_header)` as the
source does. -/
def get_topics_tags_report (topics : List TopicRec) :
    List (List (List Char)) × List (List Char) :=
  let topics_tags := buildTopicsTags topics
  let report_header := List.insertionSort lexLeP (collectHeader topics)
  let report_rows := topics.map (buildRow report_header topics_tags)
  (report_rows, ("topic".data) :: report_header)

/-- Modelled from the spec (section 4.5): the union of all tag keys
(`kv_tags` keys and `m_tags` members) observed across all topics with a
related point, used as the specification-side description the computed
header is compared against. -/
def specObservedTags (topics : List TopicRec) : List (List Char) :=
  topics.flatMap (fun t =>
    match t.point with
    | none => []
    | some p => p.kv_tags.map Prod.fst ++ p.m_tags)

/-! ## Lemmas on the string primitives and digit parsing -/

theorem pySuffix_append {n : Nat} (xs ys : List Char) (h : ys.length = n) :
    pySuffix n (xs ++ ys) = ys := by
  unfold pySuffix
  rw [List.length_append, h, Nat.add_sub_cancel, List.drop_left]

theorem pyDropSuffix_append {n : Nat} (xs ys : List Char) (h : ys.length = n) :
    pyDropSuffix n (xs ++ ys) = xs := by
  unfold pyDropSuffix
  rw [List.length_append, h, Nat.add_sub_cancel, List.take_left]

theorem pySuffix_ne {n : Nat} {x pat : List Char} (c : Char) (hc : c ∈ pat)
    (hx : c ∉ x) : pySuffix n x ≠ pat := by
  intro h
  exact hx (List.mem_of_mem_drop (h ▸ hc))

theorem ne_of_mem_not_mem {a b : List Char} (c : Char) (hcb : c ∈ b) (hca : c ∉ a) :
    a ≠ b := fun h => hca (h ▸ hcb)

theorem not_mem_append_digits {s : List Char} (pat : List Char)
    (h2 : ∀ c ∈ s, c.isDigit = true) (c : Char) (hc : c.isDigit = false)
    (hp : c ∉ pat) : c ∉ s ++ pat := by
  intro h
  rcases List.mem_append.mp h with h | h
  · rw [h2 c h] at hc; cases hc
  · exact hp h

theorem parseDigitsAux_eq {s : List Char} (h : ∀ c ∈ s, c.isDigit = true) :
    ∀ acc : Nat, parseDigitsAux s acc
      = some (s.foldl (fun a c => 10 * a + (c.toNat - 48)) acc) := by
  induction s with
  | nil => intro acc; rfl
  | cons c cs ih =>
      intro acc
      have hc : c.isDigit = true := h c (List.mem_cons_self c cs)
      have hcs : ∀ a ∈ cs, a.isDigit = true := fun a ha => h a (List.mem_cons_of_mem c ha)
      simp only [parseDigitsAux, hc, if_true, List.foldl_cons]
      exact ih hcs _

theorem parseDigits_eq {s : List Char} (h1 : s ≠ []) (h2 : ∀ c ∈ s, c.isDigit = true) :
    parseDigits s = some (digitsVal s) := by
  unfold parseDigits digitsVal
  rw [if_neg h1]
  exact parseDigitsAux_eq h2 0

theorem parsePyInt_eq {s : List Char} (h1 : s ≠ []) (h2 : ∀ c ∈ s, c.isDigit = true) :
    parsePyInt s = some ((digitsVal s : Int)) := by
  match s, h1 with
  | c :: rest, _ =>
      have hc : c.isDigit = true := h2 c (List.mem_cons_self c rest)
      have hminus : ¬(c = '-') := by intro h; rw [h] at hc; cases hc
      have hplus : ¬(c = '+') := by intro h; rw [h] at hc; cases hc
      simp only [parsePyInt, if_neg hminus, if_neg hplus,
        parseDigits_eq (List.cons_ne_nil c rest) h2, Option.map_some']
      rfl

/-! ## Lemmas on the range resolver -/

theorem resolveRange_of_ne_nil (pd : List Char → Option Int) {trange : List Char}
    (now : Int) (h : trange ≠ []) :
    resolveRange pd trange now = resolveRangeConv pd trange now := by
  unfold resolveRange
  rw [if_neg h]

theorem resolveRangeConv_today (pd : List Char → Option Int) (now : Int) :
    resolveRangeConv pd ("today".data) now = some (now - day, now) := rfl

theorem resolveRangeConv_yesterday (pd : List Char → Option Int) (now : Int) :
    resolveRangeConv pd ("yesterday".data) now = some (now - 2 * day, now - day) := rfl

theorem resolveRangeConv_months (pd : List Char → Option Int) (now : Int)
    {s : List Char} (h1 : s ≠ []) (h2 : ∀ c ∈ s, c.isDigit = true) :
    resolveRangeConv pd (s ++ (" months".data)) now
      = some (now - 30 * (digitsVal s : Int) * day, now) := by
  have hlen : 0 < s.length := List.length_pos.mpr h1
  have ht : s ++ (" months".data) ≠ ("today".data) :=
    ne_of_mem_not_mem 'y' (by decide)
      (not_mem_append_digits _ h2 'y' (by decide) (by decide))
  have hy : s ++ (" months".data) ≠ ("yesterday".data) :=
    ne_of_mem_not_mem 'e' (by decide)
      (not_mem_append_digits _ h2 'e' (by decide) (by decide))
  have hown : (s ++ (" months".data)).length > 7 ∧
      pySuffix 7 (s ++ (" months".data)) = (" months".data) := by
    constructor
    · have hp : ((" months".data)).length = 7 := rfl
      rw [List.length_append, hp]
      omega
    · exact pySuffix_append s _ rfl
  unfold resolveRangeConv
  rw [if_neg ht, if_neg hy, if_pos hown, @pyDropSuffix_append 7 s (" months".data) rfl, parsePyInt_eq h1 h2]
  rfl

theorem resolveRangeConv_month (pd : List Char → Option Int) (now : Int)
    {s : List Char} (h1 : s ≠ []) (h2 : ∀ c ∈ s, c.isDigit = true) :
    resolveRangeConv pd (s ++ (" month".data)) now
      = some (now - 30 * (digitsVal s : Int) * day, now) := by
  have hlen : 0 < s.length := List.length_pos.mpr h1
  have ht : s ++ (" month".data) ≠ ("today".data) :=
    ne_of_mem_not_mem 'y' (by decide)
      (not_mem_append_digits _ h2 'y' (by decide) (by decide))
  have hy : s ++ (" month".data) ≠ ("yesterday".data) :=
    ne_of_mem_not_mem 'e' (by decide)
      (not_mem_append_digits _ h2 'e' (by decide) (by decide))
  have hmos : ¬((s ++ (" month".data)).length > 7 ∧
      pySuffix 7 (s ++ (" month".data)) = (" months".data)) := by
    rintro ⟨-, h⟩
    exact pySuffix_ne 's' (by decide)
      (not_mem_append_digits _ h2 's' (by decide) (by decide)) h
  have hown : (s ++ (" month".data)).length > 6 ∧
      pySuffix 6 (s ++ (" month".data)) = (" month".data) := by
    constructor
    · have hp : ((" month".data)).length = 6 := rfl
      rw [List.length_append, hp]
      omega
    · exact pySuffix_append s _ rfl
  unfold resolveRangeConv
  rw [if_neg ht, if_neg hy, if_neg hmos, if_pos hown, @pyDropSuffix_append 6 s (" month".data) rfl,
    parsePyInt_eq h1 h2]
  rfl

theorem resolveRangeConv_days (pd : List Char → Option Int) (now : Int)
    {s : List Char} (h1 : s ≠ []) (h2 : ∀ c ∈ s, c.isDigit = true) :
    resolveRangeConv pd (s ++ (" days".data)) now
      = some (now - (digitsVal s : Int) * day, now) := by
  have hlen : 0 < s.length := List.length_pos.mpr h1
  have ht : s ++ (" days".data) ≠ ("today".data) :=
    ne_of_mem_not_mem 'o' (by decide)
      (not_mem_append_digits _ h2 'o' (by decide) (by decide))
  have hy : s ++ (" days".data) ≠ ("yesterday".data) :=
    ne_of_mem_not_mem 'e' (by decide)
      (not_mem_append_digits _ h2 'e' (by decide) (by decide))
  have hmos : ¬((s ++ (" days".data)).length > 7 ∧
      pySuffix 7 (s ++ (" days".data)) = (" months".data)) := by
    rintro ⟨-, h⟩
    exact pySuffix_ne 'n' (by decide)
      (not_mem_append_digits _ h2 'n' (by decide) (by decide)) h
  have hmo : ¬((s ++ (" days".data)).length > 6 ∧
      pySuffix 6 (s ++ (" days".data)) = (" month".data)) := by
    rintro ⟨-, h⟩
    exact pySuffix_ne 'n' (by decide)
      (not_mem_append_digits _ h2 'n' (by decide) (by decide)) h
  have hown : (s ++ (" days".data)).length > 5 ∧
      pySuffix 5 (s ++ (" days".data)) = (" days".data) := by
    constructor
    · have hp : ((" days".data)).length = 5 := rfl
      rw [List.length_append, hp]
      omega
    · exact pySuffix_append s _ rfl
  unfold resolveRangeConv
  rw [if_neg ht, if_neg hy, if_neg hmos, if_neg hmo, if_pos hown,
    @pyDropSuffix_append 5 s (" days".data) rfl, parsePyInt_eq h1 h2]
  rfl

theorem resolveRangeConv_hours (pd : List Char → Option Int) (now : Int)
    {s : List Char} (h1 : s ≠ []) (h2 : ∀ c ∈ s, c.isDigit = true) :
    resolveRangeConv pd (s ++ ("h".data)) now
      = some (now - (digitsVal s : Int) * hour, now) := by
  have hlen : 0 < s.length := List.length_pos.mpr h1
  have ht : s ++ ("h".data) ≠ ("today".data) :=
    ne_of_mem_not_mem 'o' (by decide)
      (not_mem_append_digits _ h2 'o' (by decide) (by decide))
  have hy : s ++ ("h".data) ≠ ("yesterday".data) :=
    ne_of_mem_not_mem 'e' (by decide)
      (not_mem_append_digits _ h2 'e' (by decide) (by decide))
  have hmos : ¬((s ++ ("h".data)).length > 7 ∧
      pySuffix 7 (s ++ ("h".data)) = (" months".data)) := by
    rintro ⟨-, h⟩
    exact pySuffix_ne ' ' (by decide)
      (not_mem_append_digits _ h2 ' ' (by decide) (by decide)) h
  have hmo : ¬((s ++ ("h".data)).length > 6 ∧
      pySuffix 6 (s ++ ("h".data)) = (" month".data)) := by
    rintro ⟨-, h⟩
    exact pySuffix_ne ' ' (by decide)
      (not_mem_append_digits _ h2 ' ' (by decide) (by decide)) h
  have hd : ¬((s ++ ("h".data)).length > 5 ∧
      pySuffix 5 (s ++ ("h".data)) = (" days".data)) := by
    rintro ⟨-, h⟩
    exact pySuffix_ne ' ' (by decide)
      (not_mem_append_digits _ h2 ' ' (by decide) (by decide)) h
  have hown : (s ++ ("h".data)).length > 1 ∧
      pySuffix 1 (s ++ ("h".data)) = ("h".data) := by
    constructor
    · have hp : (("h".data)).length = 1 := rfl
      rw [List.length_append, hp]
      omega
    · exact pySuffix_append s _ rfl
  unfold resolveRangeConv
  rw [if_neg ht, if_neg hy, if_neg hmos, if_neg hmo, if_neg hd, if_pos hown,
    @pyDropSuffix_append 1 s ("h".data) rfl, parsePyInt_eq h1 h2]
  rfl

theorem resolveRangeConv_minutes (pd : List Char → Option Int) (now : Int)
    {s : List Char} (h1 : s ≠ []) (h2 : ∀ c ∈ s, c.isDigit = true) :
    resolveRangeConv pd (s ++ ("m".data)) now
      = some (now - (digitsVal s : Int) * minute, now) := by
  have hlen : 0 < s.length := List.length_pos.mpr h1
  have ht : s ++ ("m".data) ≠ ("today".data) :=
    ne_of_mem_not_mem 'o' (by decide)
      (not_mem_append_digits _ h2 'o' (by decide) (by decide))
  have hy : s ++ ("m".data) ≠ ("yesterday".data) :=
    ne_of_mem_not_mem 'e' (by decide)
      (not_mem_append_digits _ h2 'e' (by decide) (by decide))
  have hmos : ¬((s ++ ("m".data)).length > 7 ∧
      pySuffix 7 (s ++ ("m".data)) = (" months".data)) := by
    rintro ⟨-, h⟩
    exact pySuffix_ne ' ' (by decide)
      (not_mem_append_digits _ h2 ' ' (by decide) (by decide)) h
  have hmo : ¬((s ++ ("m".data)).length > 6 ∧
      pySuffix 6 (s ++ ("m".data)) = (" month".data)) := by
    rintro ⟨-, h⟩
    exact pySuffix_ne ' ' (by decide)
      (not_mem_append_digits _ h2 ' ' (by decide) (by decide)) h
  have hd : ¬((s ++ ("m".data)).length > 5 ∧
      pySuffix 5 (s ++ ("m".data)) = (" days".data)) := by
    rintro ⟨-, h⟩
    exact pySuffix_ne ' ' (by decide)
      (not_mem_append_digits _ h2 ' ' (by decide) (by decide)) h
  have hh : ¬((s ++ ("m".data)).length > 1 ∧
      pySuffix 1 (s ++ ("m".data)) = ("h".data)) := by
    rintro ⟨-, h⟩
    rw [@pySuffix_append 1 s ("m".data) rfl] at h
    exact absurd h (by decide)
  have hown : (s ++ ("m".data)).length > 1 ∧
      pySuffix 1 (s ++ ("m".data)) = ("m".data) := by
    constructor
    · have hp : (("m".data)).length = 1 := rfl
      rw [List.length_append, hp]
      omega
    · exact pySuffix_append s _ rfl
  unfold resolveRangeConv
  rw [if_neg ht, if_neg hy, if_neg hmos, if_neg hmo, if_neg hd, if_neg hh, if_pos hown,
    @pyDropSuffix_append 1 s ("m".data) rfl, parsePyInt_eq h1 h2]
  rfl

theorem resolveRangeConv_parse_fail (pd : List Char → Option Int) (t : List Char)
    (now : Int) (h : isRelTok t = false)
    (hp : ∀ seg ∈ t.splitOn ',', pd seg = none) :
    resolveRangeConv pd t now = none := by
  unfold isRelTok at h
  simp only [Bool.or_eq_false_iff, Bool.and_eq_false_iff, decide_eq_false_iff_not] at h
  obtain ⟨⟨⟨⟨⟨⟨h1, h2⟩, h3⟩, h4⟩, h5⟩, h6⟩, h7⟩ := h
  unfold resolveRangeConv
  rw [if_neg h1, if_neg h2, if_neg (by rcases h3 with h | h <;> simp [h]),
    if_neg (by rcases h4 with h | h <;> simp [h]),
    if_neg (by rcases h5 with h | h <;> simp [h]),
    if_neg (by rcases h6 with h | h <;> simp [h]),
    if_neg (by rcases h7 with h | h <;> simp [h])]
  cases hs : t.splitOn ',' with
  | nil => rfl
  | cons d0 rest =>
      have h0 : pd d0 = none := hp d0 (by rw [hs]; exact List.mem_cons_self d0 rest)
      simp only [h0]

/-- Stand-in instantiation of the external `dateutil` date parser, used
only to instantiate the `parse_datetime` parameter on concrete inputs:
it parses a plain integer literal as an instant. -/
def demoDateParse (s : List Char) : Option Int := parsePyInt s

/-! ## Claim C1 -/

/-- C1: for every relative range token of the grammar, `get_point_values`
resolves it to the stated bounds, computed from `now` at resolution
time: `today` gives (now - 1 day, now), `yesterday` gives
(now - 2 days, now - 1 day), `N months` and `N month` give
(now - 30 N days, now), `N days` gives (now - N days, now), `Nh` gives
(now - N hours, now), `Nm` gives (now - N minutes, now), with the checks
applied in priority order so that the first matching suffix wins (in
particular a token ending in ` month`, which also ends in `h`, is parsed
as months, never as hours). -/
theorem C1_relative_range_tokens (pd : List Char → Option Int) (now : Int)
    {s : List Char} (h1 : s ≠ []) (h2 : ∀ c ∈ s, c.isDigit = true) :
    resolveRange pd ("today".data) now = some (now - day, now) ∧
    resolveRange pd ("yesterday".data) now = some (now - 2 * day, now - day) ∧
    resolveRange pd (s ++ (" months".data)) now
      = some (now - 30 * (digitsVal s : Int) * day, now) ∧
    resolveRange pd (s ++ (" month".data)) now
      = some (now - 30 * (digitsVal s : Int) * day, now) ∧
    resolveRange pd (s ++ (" days".data)) now
      = some (now - (digitsVal s : Int) * day, now) ∧
    resolveRange pd (s ++ ("h".data)) now
      = some (now - (digitsVal s : Int) * hour, now) ∧
    resolveRange pd (s ++ ("m".data)) now
      = some (now - (digitsVal s : Int) * minute, now) := by
  have hne : ∀ pat : List Char, s ++ pat ≠ [] := by
    intro pat h
    exact h1 (List.append_eq_nil.mp h).1
  refine ⟨?_, ?_, ?_, ?_, ?_, ?_, ?_⟩
  · rw [resolveRange_of_ne_nil pd now (by decide)]
    exact resolveRangeConv_today pd now
  · rw [resolveRange_of_ne_nil pd now (by decide)]
    exact resolveRangeConv_yesterday pd now
  · rw [resolveRange_of_ne_nil pd now (hne _)]
    exact resolveRangeConv_months pd now h1 h2
  · rw [resolveRange_of_ne_nil pd now (hne _)]
    exact resolveRangeConv_month pd now h1 h2
  · rw [resolveRange_of_ne_nil pd now (hne _)]
    exact resolveRangeConv_days pd now h1 h2
  · rw [resolveRange_of_ne_nil pd now (hne _)]
    exact resolveRangeConv_hours pd now h1 h2
  · rw [resolveRange_of_ne_nil pd now (hne _)]
    exact resolveRangeConv_minutes pd now h1 h2

/-- Witness for C1 at the concrete token `3 months` and `now = 1000`. -/
theorem C1_relative_range_tokens_witness :
    digitsVal ("3".data) = 3 ∧
    resolveRange (fun _ => none) (("3".data) ++ (" months".data)) 1000
      = some (1000 - 30 * ((3 : Nat) : Int) * day, 1000) := by
  refine ⟨rfl, ?_⟩
  exact (C1_relative_range_tokens (fun _ => none) 1000 (by decide) (by decide)).2.2.1

/-! ## Claim C4 -/

/-- C4: `get_point_values` silently substitutes a default in exactly the
two stated cases — an empty range token behaves as `24h`, and a
truncation granularity outside day/hour/minute/second behaves as
`minute` with no error (the run is identical to a run with `minute`) —
while a non-empty range token that matches no relative form and whose
date text is rejected by the date parser produces a caller-visible
failure (`none`), not a default. -/
theorem C4_default_substitution :
    (∀ (pd : List Char → Option Int) (now : Int),
      resolveRange pd [] now = resolveRange pd ("24h".data) now) ∧
    (∀ s : List Char,
      s ∉ [("day".data), ("hour".data), ("minute".data), ("second".data)] →
      validate_date_trunc s = ("minute".data)) ∧
    (∀ (pd : List Char → Option Int) store (d : PointView)
        (s vf tr : List Char) (tad : Bool) (now : Int),
      s ∉ [("day".data), ("hour".data), ("minute".data), ("second".data)] →
      get_point_values_run pd store d s vf tr tad now
        = get_point_values_run pd store d ("minute".data) vf tr tad now) ∧
    (∀ (pd : List Char → Option Int) (t : List Char) (now : Int),
      t ≠ [] → isRelTok t = false → (∀ seg ∈ t.splitOn ',', pd seg = none) →
      resolveRange pd t now = none) := by
  have hval : ∀ s : List Char,
      s ∉ [("day".data), ("hour".data), ("minute".data), ("second".data)] →
      validate_date_trunc s = ("minute".data) := by
    intro s hs
    unfold validate_date_trunc
    rw [if_neg hs]
    rfl
  refine ⟨fun pd now => rfl, hval, ?_, ?_⟩
  · intro pd store d s vf tr tad now hs
    have h1 : validate_date_trunc s = ("minute".data) := hval s hs
    have h2 : validate_date_trunc ("minute".data) = ("minute".data) := rfl
    simp only [get_point_values_run, h1, h2]
  · intro pd t now h0 hrel hp
    rw [resolveRange_of_ne_nil pd now h0]
    exact resolveRangeConv_parse_fail pd t now hrel hp

/-- Witness for C4 at the invalid granularity `fortnight` and the
malformed non-empty token `garbage`. -/
theorem C4_default_substitution_witness :
    validate_date_trunc ("fortnight".data) = ("minute".data) ∧
    resolveRange (fun _ => none) ("garbage".data) 0 = none := by
  constructor
  · exact C4_default_substitution.2.1 ("fortnight".data) (by decide)
  · exact C4_default_substitution.2.2.2 (fun _ => none) ("garbage".data) 0
      (by decide) (by decide) (fun seg _ => rfl)

/-! ## Claim C5 -/

/-- C5 counterexample: the claim states `start < end` for every
supported range token including the explicit `<date>,<date>` form of
grammar rule 8, but the code performs no ordering check: the explicit
pair `2,1` resolves to `(2, 1)` with `start > end`, and the supported
relative token `0h` resolves to `(now, now)` with `start = end`. -/
theorem C5_counterexample :
    resolveRange demoDateParse ("2,1".data) 100 = some (2, 1) ∧
    ¬((2 : Int) < 1) ∧
    resolveRange (fun _ => none) ("0h".data) 100 = some (100, 100) ∧
    ¬((100 : Int) < 100) := by
  refine ⟨by decide, by decide, by decide, by decide⟩

/-- C5 (amended): for the relative range tokens with a positive count
(and for `today`, `yesterday` and the default `24h`), the resolved
interval satisfies `start < end` and the bounds are the stated offsets
from `now`; the explicit date forms of grammar rule 8 carry no such
guarantee (see the counterexample). -/
theorem C5_start_lt_end (pd : List Char → Option Int) (now : Int)
    {s : List Char} (h1 : s ≠ []) (h2 : ∀ c ∈ s, c.isDigit = true)
    (h3 : 0 < digitsVal s) :
    (resolveRange pd ("today".data) now = some (now - day, now) ∧
      now - day < now) ∧
    (resolveRange pd ("yesterday".data) now = some (now - 2 * day, now - day) ∧
      now - 2 * day < now - day) ∧
    (resolveRange pd ("24h".data) now = some (now - 24 * hour, now) ∧
      now - 24 * hour < now) ∧
    (resolveRange pd (s ++ (" months".data)) now
        = some (now - 30 * (digitsVal s : Int) * day, now) ∧
      now - 30 * (digitsVal s : Int) * day < now) ∧
    (resolveRange pd (s ++ (" month".data)) now
        = some (now - 30 * (digitsVal s : Int) * day, now) ∧
      now - 30 * (digitsVal s : Int) * day < now) ∧
    (resolveRange pd (s ++ (" days".data)) now
        = some (now - (digitsVal s : Int) * day, now) ∧
      now - (digitsVal s : Int) * day < now) ∧
    (resolveRange pd (s ++ ("h".data)) now
        = some (now - (digitsVal s : Int) * hour, now) ∧
      now - (digitsVal s : Int) * hour < now) ∧
    (resolveRange pd (s ++ ("m".data)) now
        = some (now - (digitsVal s : Int) * minute, now) ∧
      now - (digitsVal s : Int) * minute < now) := by
  have hne : ∀ pat : List Char, s ++ pat ≠ [] := by
    intro pat h
    exact h1 (List.append_eq_nil.mp h).1
  have hN : (0 : Int) < (digitsVal s : Int) := by exact_mod_cast h3
  have hday : (0 : Int) < day := by norm_num [day]
  have hhour : (0 : Int) < hour := by norm_num [hour]
  have hminute : (0 : Int) < minute := by norm_num [minute]
  refine ⟨⟨?_, ?_⟩, ⟨?_, ?_⟩, ⟨?_, ?_⟩, ⟨?_, ?_⟩, ⟨?_, ?_⟩, ⟨?_, ?_⟩, ⟨?_, ?_⟩, ⟨?_, ?_⟩⟩
  · rw [resolveRange_of_ne_nil pd now (by decide)]
    exact resolveRangeConv_today pd now
  · exact sub_lt_self now hday
  · rw [resolveRange_of_ne_nil pd now (by decide)]
    exact resolveRangeConv_yesterday pd now
  · have : now - 2 * day = now - day - day := by ring
    rw [this]
    exact sub_lt_self _ hday
  · rw [resolveRange_of_ne_nil pd now (by decide)]
    rfl
  · exact sub_lt_self now (by positivity)
  · rw [resolveRange_of_ne_nil pd now (hne _)]
    exact resolveRangeConv_months pd now h1 h2
  · exact sub_lt_self now (by positivity)
  · rw [resolveRange_of_ne_nil pd now (hne _)]
    exact resolveRangeConv_month pd now h1 h2
  · exact sub_lt_self now (by positivity)
  · rw [resolveRange_of_ne_nil pd now (hne _)]
    exact resolveRangeConv_days pd now h1 h2
  · exact sub_lt_self now (by positivity)
  · rw [resolveRange_of_ne_nil pd now (hne _)]
    exact resolveRangeConv_hours pd now h1 h2
  · exact sub_lt_self now (by positivity)
  · rw [resolveRange_of_ne_nil pd now (hne _)]
    exact resolveRangeConv_minutes pd now h1 h2
  · exact sub_lt_self now (by positivity)

/-- Witness for C5 at the concrete token `24h` (via the amended theorem
at `s = "24"`) and `now = 0`. -/
theorem C5_start_lt_end_witness :
    resolveRange (fun _ => none) ("24h".data) 0 = some (0 - 24 * hour, 0) ∧
    (0 : Int) - 24 * hour < 0 :=
  (@C5_start_lt_end (fun _ => none) 0 ("24".data) (by decide) (by decide) (by decide)).2.2.1

/-! ## Claim C3 -/

/-- C3 counterexample: the claim states the decoded output is `1`
whenever the representative string equals `t` or is not the literal `0`;
the empty-string representative is not `0`, yet the code's truthiness
guard (`if value and ...`) sends it to the rounded-aggregate branch:
with numeric aggregate `5` the decoded value is `5`, not `1`. -/
theorem C3_counterexample :
    (PyVal.vstr [] = PyVal.vstr ("t".data) ∨ PyVal.vstr [] ≠ PyVal.vstr ("0".data)) ∧
    processRow true false ⟨100, PyVal.vstr [], 5⟩ = (100, PyVal.vint 5) ∧
    PyVal.vint 5 ≠ PyVal.vint 1 := by
  refine ⟨by decide, by decide, by decide⟩

/-- C3 (amended): in `get_point_values` for a Bool point, a row decodes
to `1` exactly when the representative value is truthy (non-null,
non-empty) and (equals `t` or is not the literal `0`); otherwise it
decodes to the rounded numeric aggregate.  In particular representative
`t` decodes to `1`, and representative `0` with numeric aggregate
`2.4` decodes to `2`. -/
theorem C3_bool_decoding (v : PyVal) (agg : Rat) :
    (PyVal.truthy v = true ∧
        (v = PyVal.vstr ("t".data) ∨ v ≠ PyVal.vstr ("0".data)) →
      boolValue v agg = PyVal.vint 1) ∧
    (¬(PyVal.truthy v = true ∧
        (v = PyVal.vstr ("t".data) ∨ v ≠ PyVal.vstr ("0".data))) →
      boolValue v agg = PyVal.vint (pyRound agg)) ∧
    boolValue (PyVal.vstr ("t".data)) agg = PyVal.vint 1 ∧
    boolValue (PyVal.vstr ("0".data)) (mkRat 12 5) = PyVal.vint 2 ∧
    (∀ (tad : Bool) (r : DataRow),
      processRow true tad r
        = ((if tad then tsToDatetimeSec r.ts else r.ts), boolValue r.value r.agg)) := by
  refine ⟨?_, ?_, ?_, by decide, fun tad r => rfl⟩
  · intro h
    unfold boolValue
    rw [if_pos h]
  · intro h
    unfold boolValue
    rw [if_neg h]
  · unfold boolValue
    rw [if_pos ⟨by decide, Or.inl rfl⟩]

/-- Witness for C3 at the truthy non-`t` representative `xyz`. -/
theorem C3_bool_decoding_witness :
    boolValue (PyVal.vstr ("xyz".data)) 7 = PyVal.vint 1 :=
  (C3_bool_decoding (PyVal.vstr ("xyz".data)) 7).1 (by decide)

/-! ## Claim C6 -/

/-- C6 counterexample: the claim promises a strictly ascending returned
sequence for every store result that is strictly descending by
timestamp, but with `ts_as_datetime = true` the timestamps are truncated
to seconds: the strictly descending store rows at 1900 ms and 1100 ms
both truncate to second 1, and the returned sequence is not strictly
ascending. -/
theorem C6_counterexample :
    ([⟨1900, PyVal.vstr ("a".data), 0⟩, ⟨1100, PyVal.vstr ("b".data), 0⟩] :
        List DataRow).Pairwise (fun a b => b.ts < a.ts) ∧
    get_point_values_run (fun _ => none)
        (fun _ _ => some [⟨1900, PyVal.vstr ("a".data), 0⟩,
                          ⟨1100, PyVal.vstr ("b".data), 0⟩])
        ⟨("p".data), ("t".data), ("String".data), none, ("e".data), [], []⟩
        ("minute".data) ("avg".data) ("today".data) true 0
      = (some [(1, PyVal.vstr ("b".data)), (1, PyVal.vstr ("a".data))], true) ∧
    ¬(([(1, PyVal.vstr ("b".data)), (1, PyVal.vstr ("a".data))] :
        List (Nat × PyVal)).Pairwise (fun a b => a.1 < b.1)) := by
  refine ⟨by decide, by decide, by decide⟩

/-- C6 (amended): for every store result over the bounded range, the
sequence `get_point_values` returns is the reversal of the rows it
collected; when the store rows are strictly descending by timestamp the
returned sequence is strictly ascending by timestamp if the raw epoch
timestamps are kept (`ts_as_datetime = false`), and ascending
(non-strictly, because of the truncation to seconds) when
`ts_as_datetime = true`. -/
theorem C6_chronological_order
    (pd : List Char → Option Int)
    (store : List Char → List Char × Int × Int → Option (List DataRow))
    (d : PointView) (dt vf tr : List Char) (tad : Bool) (now s e : Int)
    (rows : List DataRow)
    (hr : resolveRange pd tr now = some (s, e))
    (hs : store (buildSql (pointIsNumber d) (pointIsBool d) (validate_date_trunc dt) vf)
            (d.topic, s, e) = some rows)
    (hdesc : rows.Pairwise (fun a b => b.ts < a.ts)) :
    get_point_values_run pd store d dt vf tr tad now
        = (some ((rows.map (processRow (pointIsBool d) tad)).reverse), true) ∧
    (tad = false →
      ((rows.map (processRow (pointIsBool d) tad)).reverse).Pairwise
        (fun a b => a.1 < b.1)) ∧
    ((rows.map (processRow (pointIsBool d) tad)).reverse).Pairwise
      (fun a b => a.1 ≤ b.1) := by
  refine ⟨?_, ?_, ?_⟩
  · simp only [get_point_values_run, hr, hs]
  · intro h
    subst h
    rw [List.pairwise_reverse, List.pairwise_map]
    exact hdesc.imp (fun hab => hab)
  · rw [List.pairwise_reverse, List.pairwise_map]
    cases tad with
    | false => exact hdesc.imp (fun hab => Nat.le_of_lt hab)
    | true =>
        refine hdesc.imp (fun hab => ?_)
        exact Nat.div_le_div_right (Nat.le_of_lt hab)

/-- Witness for C6 at a concrete two-row descending store result with
raw epoch timestamps. -/
theorem C6_chronological_order_witness :
    get_point_values_run (fun _ => none)
        (fun _ _ => some [⟨1900, PyVal.vstr ("a".data), 0⟩,
                          ⟨1100, PyVal.vstr ("b".data), 0⟩])
        ⟨("p".data), ("t".data), ("String".data), none, ("e".data), [], []⟩
        ("minute".data) ("avg".data) ("today".data) false 0
      = (some [(1100, PyVal.vstr ("b".data)), (1900, PyVal.vstr ("a".data))], true) ∧
    ([(1100, PyVal.vstr ("b".data)), (1900, PyVal.vstr ("a".data))] :
        List (Nat × PyVal)).Pairwise (fun a b => a.1 < b.1) := by
  have h := C6_chronological_order (fun _ => none)
    (fun _ _ => some [⟨1900, PyVal.vstr ("a".data), 0⟩,
                      ⟨1100, PyVal.vstr ("b".data), 0⟩])
    ⟨("p".data), ("t".data), ("String".data), none, ("e".data), [], []⟩
    ("minute".data) ("avg".data) ("today".data) false 0 (0 - day) 0
    [⟨1900, PyVal.vstr ("a".data), 0⟩, ⟨1100, PyVal.vstr ("b".data), 0⟩]
    (by decide) (by decide) (by decide)
  exact ⟨h.1, h.2.1 rfl⟩

/-! ## Claim C7 -/

/-- C7 counterexample: the claim states that every call of
`get_point_values` that opens its own store connection closes it on
every exit path; in the run embedding the second component records
whether `conn.close()` executed.  On a malformed range token the date
parsing raises before the close (connection left open), and on a store
query failure the exception likewise propagates before the close. -/
theorem C7_counterexample :
    get_point_values_run (fun _ => none) (fun _ _ => some [])
        ⟨("p".data), ("t".data), ("Number".data), none, ("e".data), [], []⟩
        ("minute".data) ("avg".data) ("garbage".data) false 0
      = (none, false) ∧
    get_point_values_run (fun _ => none) (fun _ _ => none)
        ⟨("p".data), ("t".data), ("Number".data), none, ("e".data), [], []⟩
        ("minute".data) ("avg".data) ("24h".data) false 0
      = (none, false) := by
  refine ⟨by decide, by decide⟩

/-- C7 (amended): `get_point_values` closes its connection exactly on
the normal path — the connection is closed if and only if the call
returns data; on a range-parsing or query exception the error
propagates with the connection left open. -/
theorem C7_connection_close_iff
    (pd : List Char → Option Int)
    (store : List Char → List Char × Int × Int → Option (List DataRow))
    (d : PointView) (dt vf tr : List Char) (tad : Bool) (now : Int) :
    (get_point_values_run pd store d dt vf tr tad now).2 = true ↔
    ((get_point_values_run pd store d dt vf tr tad now).1).isSome = true := by
  rcases hr : resolveRange pd tr now with _ | ⟨a, b⟩
  · simp [get_point_values_run, hr]
  · rcases hsq : store (buildSql (pointIsNumber d) (pointIsBool d)
        (validate_date_trunc dt) vf) (d.topic, a, b) with _ | rows
    · simp [get_point_values_run, hr, hsq]
    · simp [get_point_values_run, hr, hsq]

/-! ## Claim C2 -/

theorem ahuCatalog_fst_nodup : (ahuCatalog.map Prod.fst).Nodup := by decide

theorem mem_roleCandidates (pts : List PointView) (r : Role) (x : PointView) :
    x ∈ roleCandidates pts r ↔
      x ∈ pts ∧ (∀ tg ∈ r.has, tg ∈ x.m_tags) ∧
        ∀ tg ∈ r.exclude.getD [], tg ∉ x.m_tags := by
  unfold roleCandidates
  cases hx : r.exclude with
  | none =>
      simp [List.mem_filter, List.all_eq_true, decide_eq_true_iff]
  | some ex =>
      simp [List.mem_filter, List.all_eq_true, List.any_eq_true,
        decide_eq_true_iff, not_exists]
      tauto

theorem selectRolePoint_eq_none (pts : List PointView) (r : Role) :
    roleCandidates pts r = [] ↔ selectRolePoint pts r = none := by
  constructor
  · intro h
    simp [selectRolePoint, h]
  · intro h
    cases hc : roleCandidates pts r with
    | nil => rfl
    | cons a t =>
        exfalso
        unfold selectRolePoint at h
        rw [hc] at h
        by_cases hlen : 1 < (a :: t).length
        · rw [if_pos (by simp), if_pos hlen] at h
          have hperm := List.perm_insertionSort tagLenLe (a :: t)
          cases hsort : List.insertionSort tagLenLe (a :: t) with
          | nil =>
              have := hperm.length_eq
              rw [hsort] at this
              simp at this
          | cons y ys => rw [hsort] at h; cases h
        · rw [if_pos (by simp), if_neg hlen] at h
          cases h

theorem selectRolePoint_mem_min (pts : List PointView) (r : Role) (p : PointView)
    (hp : selectRolePoint pts r = some p) :
    p ∈ roleCandidates pts r ∧
      ∀ q ∈ roleCandidates pts r, p.m_tags.length ≤ q.m_tags.length := by
  unfold selectRolePoint at hp
  cases hc : roleCandidates pts r with
  | nil => rw [hc] at hp; cases hp
  | cons a t =>
      rw [hc] at hp
      by_cases hlen : 1 < (a :: t).length
      · rw [if_pos (by simp), if_pos hlen] at hp
        have hperm := List.perm_insertionSort tagLenLe (a :: t)
        have hsorted := List.sorted_insertionSort tagLenLe (a :: t)
        cases hsort : List.insertionSort tagLenLe (a :: t) with
        | nil =>
            have := hperm.length_eq
            rw [hsort] at this
            simp at this
        | cons y ys =>
            rw [hsort] at hp
            have hyp : y = p := by
              simpa using hp
            subst hyp
            rw [hsort] at hperm hsorted
            constructor
            · exact hperm.subset (List.mem_cons_self y ys)
            · intro q hq
              have hq2 : q ∈ y :: ys := (hperm.mem_iff).mpr hq
              rcases List.mem_cons.mp hq2 with h | h
              · rw [h]
              · exact List.rel_of_sorted_cons hsorted q h
      · have ht : t = [] := by
          cases t with
          | nil => rfl
          | cons b u => exfalso; apply hlen; simp
        subst ht
        rw [if_pos (by simp), if_neg hlen] at hp
        have hap : a = p := by simpa using hp
        subst hap
        constructor
        · exact List.mem_cons_self a []
        · intro q hq
          rcases List.mem_cons.mp hq with h | h
          · rw [h]
          · cases h

/-- C2: for every equipment point set and every role of the catalog of
`get_ahu_current_values`, the candidate set is exactly the points whose
`m_tags` contain all required tags and share no tag with the excluded
tags; an empty candidate set means the role is omitted from the result,
a singleton candidate is selected, and with several candidates a point
with the fewest `m_tags` is selected (ascending tag-count sort, first
element taken). -/
theorem C2_role_tag_matching (pts : List PointView) (r : Role) :
    (∀ x, x ∈ roleCandidates pts r ↔
        x ∈ pts ∧ (∀ tg ∈ r.has, tg ∈ x.m_tags) ∧
          ∀ tg ∈ r.exclude.getD [], tg ∉ x.m_tags) ∧
    (roleCandidates pts r = [] ↔ selectRolePoint pts r = none) ∧
    (∀ p, roleCandidates pts r = [p] → selectRolePoint pts r = some p) ∧
    (∀ p, selectRolePoint pts r = some p →
        p ∈ roleCandidates pts r ∧
          ∀ q ∈ roleCandidates pts r, p.m_tags.length ≤ q.m_tags.length) ∧
    (∀ (all_points : List PointView) (equipment_id : List Char) (n : List Char),
        (n, r) ∈ ahuCatalog →
        selectRolePoint
          (all_points.filter (fun x => decide (x.equipment_id = equipment_id))) r
            = none →
        ∀ p, (n, p) ∉ get_ahu_points all_points equipment_id) := by
  refine ⟨mem_roleCandidates pts r, selectRolePoint_eq_none pts r, ?_, ?_, ?_⟩
  · intro p hc
    unfold selectRolePoint
    rw [hc]
    rfl
  · exact selectRolePoint_mem_min pts r
  · intro all_points equipment_id n hn hnone p hmem
    unfold get_ahu_points at hmem
    simp only [List.mem_filterMap] at hmem
    obtain ⟨nt, hnt, heq⟩ := hmem
    rcases hsel : selectRolePoint
        (all_points.filter (fun x => decide (x.equipment_id = equipment_id))) nt.2
      with _ | q
    · rw [hsel] at heq; cases heq
    · rw [hsel] at heq
      have hpair : nt.1 = n ∧ q = p := by
        simpa using heq
      have hnt_eq : nt = (n, r) := by
        have hinj := List.inj_on_of_nodup_map ahuCatalog_fst_nodup
        exact hinj hnt hn hpair.1
      rw [hnt_eq] at hsel
      rw [hnone] at hsel
      cases hsel

/-- Demo point carrying exactly the five required tags of a space-air
role. -/
def demoP5 : PointView :=
  ⟨("id5".data), ("t5".data), ("Number".data), none, ("eq1".data),
    [("air".data), ("his".data), ("point".data), ("sensor".data), ("temp".data)], []⟩

/-- Demo point carrying a seven-tag superset of the same required
tags. -/
def demoP7 : PointView :=
  ⟨("id7".data), ("t7".data), ("Number".data), none, ("eq1".data),
    [("air".data), ("his".data), ("point".data), ("sensor".data), ("temp".data),
     ("return".data), ("zone".data)], []⟩

/-- Demo role requiring the five tags, with no exclusions. -/
def demoRole : Role :=
  { has := [("air".data), ("his".data), ("point".data), ("sensor".data), ("temp".data)],
    exclude := none }

/-- Witness for C2: with the seven-tag point listed first, both points
qualify and the five-tag point is selected as the minimum. -/
theorem C2_role_tag_matching_witness :
    selectRolePoint [demoP7, demoP5] demoRole = some demoP5 ∧
    demoP5 ∈ roleCandidates [demoP7, demoP5] demoRole ∧
    demoP5.m_tags.length ≤ demoP7.m_tags.length := by
  have h := C2_role_tag_matching [demoP7, demoP5] demoRole
  have hsel : selectRolePoint [demoP7, demoP5] demoRole = some demoP5 := by decide
  have hmin := h.2.2.2.1 demoP5 hsel
  exact ⟨hsel, hmin.1, hmin.2 demoP7 (by decide)⟩

/-! ## Claim C9 -/

/-- C9: when the store has no reading for a point's topic,
`get_current_value_dict` returns the explicit empty result `none`
(rather than raising — the embedding is a total function), the rendered
current value of `get_current_value` is likewise `none`, and
`add_current_values` renders the absence as the explicit `N/A` marker
for that point rather than as zero or a crash. -/
theorem C9_no_data_marker (store : List Reading)
    (fmt_epoch : Nat → List Char × List Char)
    (float_format_temp : Option (List Char) → Option (List Char))
    (p : PointView) (h : ∀ r ∈ store, r.topic ≠ p.topic) :
    get_current_value_dict store fmt_epoch float_format_temp p = none ∧
    get_current_value store fmt_epoch float_format_temp p = none ∧
    ∀ data, p ∈ data →
      (p, ("N/A".data)) ∈ add_current_values store fmt_epoch float_format_temp data := by
  have hfilter : store.filter (fun r => decide (r.topic = p.topic)) = [] := by
    refine List.filter_eq_nil_iff.mpr (fun a ha => ?_)
    simp [h a ha]
  have hq : queryLatestReading store p.topic = none := by
    unfold queryLatestReading
    rw [hfilter]
    rfl
  have h1 : get_current_value_dict store fmt_epoch float_format_temp p = none := by
    unfold get_current_value_dict
    rw [hq]
  have h2 : get_current_value store fmt_epoch float_format_temp p = none := by
    unfold get_current_value
    rw [h1]
  refine ⟨h1, h2, ?_⟩
  intro data hdata
  unfold add_current_values
  have hm := List.mem_map_of_mem
    (fun d => (d, match get_current_value store fmt_epoch float_format_temp d with
               | none => ("N/A".data)
               | some cv => cv)) hdata
  simpa [h2] using hm

/-- Witness for C9 at a one-row store whose only reading is for another
topic. -/
theorem C9_no_data_marker_witness :
    get_current_value_dict [⟨("other".data), 5, some ("1".data)⟩]
        (fun _ => ([], [])) (fun _ => none)
        ⟨("id".data), ("x".data), ("Bool".data), none, ("e".data), [], []⟩ = none ∧
    (⟨("id".data), ("x".data), ("Bool".data), none, ("e".data), [], []⟩,
        ("N/A".data)) ∈
      add_current_values [⟨("other".data), 5, some ("1".data)⟩]
        (fun _ => ([], [])) (fun _ => none)
        [⟨("id".data), ("x".data), ("Bool".data), none, ("e".data), [], []⟩] := by
  have h := C9_no_data_marker [⟨("other".data), 5, some ("1".data)⟩]
    (fun _ => ([], [])) (fun _ => none)
    ⟨("id".data), ("x".data), ("Bool".data), none, ("e".data), [], []⟩
    (by decide)
  exact ⟨h.1, h.2.2 _ (by decide)⟩

/-! ## Order theory for the lexicographic string order -/

theorem lexLe_total (a b : List Char) : lexLe a b = true ∨ lexLe b a = true := by
  induction a generalizing b with
  | nil => left; rfl
  | cons x xs ih =>
      cases b with
      | nil => right; rfl
      | cons y ys =>
          rcases lt_trichotomy x y with h | h | h
          · left; simp [lexLe, h]
          · subst h
            simp only [lexLe, lt_irrefl, if_false]
            exact ih ys
          · right; simp [lexLe, h]

theorem lexLe_trans {a b c : List Char} (hab : lexLe a b = true)
    (hbc : lexLe b c = true) : lexLe a c = true := by
  induction a generalizing b c with
  | nil => rfl
  | cons x xs ih =>
      cases b with
      | nil => simp [lexLe] at hab
      | cons y ys =>
          cases c with
          | nil => simp [lexLe] at hbc
          | cons z zs =>
              by_cases hxy : x < y
              · by_cases hyz : y < z
                · have hxz : x < z := lt_trans hxy hyz
                  simp [lexLe, hxz]
                · by_cases hzy : z < y
                  · simp [lexLe, hyz, hzy] at hbc
                  · have hyz_eq : y = z := le_antisymm (not_lt.mp hzy) (not_lt.mp hyz)
                    subst hyz_eq
                    simp [lexLe, hxy]
              · by_cases hyx : y < x
                · simp [lexLe, hxy, hyx] at hab
                · have hxy_eq : x = y := le_antisymm (not_lt.mp hyx) (not_lt.mp hxy)
                  subst hxy_eq
                  simp only [lexLe, lt_irrefl, if_false] at hab
                  by_cases hxz : x < z
                  · simp [lexLe, hxz]
                  · by_cases hzx : z < x
                    · simp [lexLe, hxz, hzx] at hbc
                    · have hxz_eq : x = z := le_antisymm (not_lt.mp hzx) (not_lt.mp hxz)
                      subst hxz_eq
                      simp only [lexLe, lt_irrefl, if_false] at hbc ⊢
                      exact ih hab hbc

theorem lexLe_antisymm {a b : List Char} (hab : lexLe a b = true)
    (hba : lexLe b a = true) : a = b := by
  induction a generalizing b with
  | nil =>
      cases b with
      | nil => rfl
      | cons y ys => simp [lexLe] at hba
  | cons x xs ih =>
      cases b with
      | nil => simp [lexLe] at hab
      | cons y ys =>
          by_cases hxy : x < y
          · have h1 : ¬(y < x) := asymm hxy
            simp [lexLe, h1, hxy] at hba
          · by_cases hyx : y < x
            · simp [lexLe, hxy, hyx] at hab
            · have hxy_eq : x = y := le_antisymm (not_lt.mp hyx) (not_lt.mp hxy)
              subst hxy_eq
              simp only [lexLe, lt_irrefl, if_false] at hab hba
              rw [ih hab hba]

instance : IsTotal (List Char) lexLeP := ⟨lexLe_total⟩

instance : IsTrans (List Char) lexLeP := ⟨fun _ _ _ => lexLe_trans⟩

instance : IsAntisymm (List Char) lexLeP := ⟨fun _ _ => lexLe_antisymm⟩

/-! ## Lemmas on the report header accumulation -/

theorem mem_addNew (hdr keys : List (List Char)) (x : List Char) :
    x ∈ addNew hdr keys ↔ x ∈ hdr ∨ x ∈ keys := by
  induction keys generalizing hdr with
  | nil => simp [addNew]
  | cons k ks ih =>
      unfold addNew at ih ⊢
      simp only [List.foldl_cons]
      by_cases hk : k ∈ hdr
      · rw [if_pos hk, ih]
        simp only [List.mem_cons]
        constructor
        · rintro (h | h)
          · exact Or.inl h
          · exact Or.inr (Or.inr h)
        · rintro (h | h | h)
          · exact Or.inl h
          · exact Or.inl (h ▸ hk)
          · exact Or.inr h
      · rw [if_neg hk, ih]
        simp only [List.mem_append, List.mem_singleton, List.mem_cons]
        tauto

theorem nodup_addNew (hdr keys : List (List Char)) (h : hdr.Nodup) :
    (addNew hdr keys).Nodup := by
  induction keys generalizing hdr with
  | nil => exact h
  | cons k ks ih =>
      unfold addNew at ih ⊢
      simp only [List.foldl_cons]
      by_cases hk : k ∈ hdr
      · rw [if_pos hk]; exact ih hdr h
      · rw [if_neg hk]
        refine ih (hdr ++ [k]) ?_
        rw [List.nodup_append]
        refine ⟨h, List.nodup_singleton k, ?_⟩
        intro a ha hb
        rw [List.mem_singleton] at hb
        exact hk (hb ▸ ha)

theorem mem_collectHeaderStep (hdr : List (List Char)) (t : TopicRec) (x : List Char) :
    x ∈ collectHeaderStep hdr t ↔
      x ∈ hdr ∨ ∃ p, t.point = some p ∧
        (x ∈ p.kv_tags.map Prod.fst ∨ x ∈ p.m_tags) := by
  unfold collectHeaderStep
  cases hp : t.point with
  | none => simp
  | some p =>
      simp only [Option.some.injEq]
      by_cases h1 : p.kv_tags ≠ [] <;> by_cases h2 : p.m_tags ≠ []
      · rw [if_pos h1, if_pos h2]
        simp [mem_addNew]
        tauto
      · rw [if_pos h1, if_neg h2]
        rw [not_not] at h2
        simp [mem_addNew, h2]
      · rw [if_neg h1, if_pos h2]
        rw [not_not] at h1
        simp [mem_addNew, h1]
      · rw [if_neg h1, if_neg h2]
        rw [not_not] at h1 h2
        simp [h1, h2]

theorem nodup_collectHeaderStep (hdr : List (List Char)) (t : TopicRec)
    (h : hdr.Nodup) : (collectHeaderStep hdr t).Nodup := by
  cases hp : t.point with
  | none => simpa [collectHeaderStep, hp] using h
  | some p =>
      simp only [collectHeaderStep, hp]
      by_cases h1 : p.kv_tags ≠ [] <;> by_cases h2 : p.m_tags ≠ []
      · rw [if_pos h1, if_pos h2]
        exact nodup_addNew _ _ (nodup_addNew _ _ h)
      · rw [if_pos h1, if_neg h2]
        exact nodup_addNew _ _ h
      · rw [if_neg h1, if_pos h2]
        exact nodup_addNew _ _ h
      · rw [if_neg h1, if_neg h2]
        exact h

theorem mem_collectHeader (topics : List TopicRec) (x : List Char) :
    x ∈ collectHeader topics ↔ x ∈ specObservedTags topics := by
  suffices h : ∀ hdr : List (List Char),
      x ∈ topics.foldl collectHeaderStep hdr ↔
        x ∈ hdr ∨ x ∈ specObservedTags topics by
    have h0 := h []
    simpa [collectHeader] using h0
  induction topics with
  | nil => intro hdr; simp [specObservedTags]
  | cons t ts ih =>
      intro hdr
      rw [List.foldl_cons, ih (collectHeaderStep hdr t), mem_collectHeaderStep]
      unfold specObservedTags
      rw [List.flatMap_cons]
      simp only [List.mem_append]
      cases hp : t.point with
      | none => simp
      | some p => simp [hp]; tauto

theorem nodup_collectHeader (topics : List TopicRec) :
    (collectHeader topics).Nodup := by
  suffices h : ∀ hdr : List (List Char), hdr.Nodup →
      (topics.foldl collectHeaderStep hdr).Nodup from
    h [] List.nodup_nil
  induction topics with
  | nil => intro hdr h; exact h
  | cons t ts ih =>
      intro hdr h
      rw [List.foldl_cons]
      exact ih _ (nodup_collectHeaderStep hdr t h)

/-! ## Claim C8 -/

/-- C8: the header returned by `get_topics_tags_report` is the fixed
`topic` column followed by the lexicographically sorted,
duplicate-free list whose members are exactly the union of all
`kv_tags` keys and `m_tags` members observed across topics with a
related point; consequently the header depends only on the set of tags
observed, not on the order in which topics are processed. -/
theorem C8_report_header (topics : List TopicRec) :
    (get_topics_tags_report topics).2
        = ("topic".data) :: List.insertionSort lexLeP (collectHeader topics) ∧
    List.Sorted lexLeP (List.insertionSort lexLeP (collectHeader topics)) ∧
    (List.insertionSort lexLeP (collectHeader topics)).Nodup ∧
    (∀ x, x ∈ List.insertionSort lexLeP (collectHeader topics) ↔
        x ∈ specObservedTags topics) ∧
    (∀ topics' : List TopicRec,
        (∀ x, x ∈ specObservedTags topics ↔ x ∈ specObservedTags topics') →
        (get_topics_tags_report topics).2 = (get_topics_tags_report topics').2) := by
  have hsorted : ∀ tp : List TopicRec,
      List.Sorted lexLeP (List.insertionSort lexLeP (collectHeader tp)) :=
    fun tp => List.sorted_insertionSort lexLeP (collectHeader tp)
  have hnodup : ∀ tp : List TopicRec,
      (List.insertionSort lexLeP (collectHeader tp)).Nodup :=
    fun tp => ((List.perm_insertionSort lexLeP (collectHeader tp)).nodup_iff).mpr
      (nodup_collectHeader tp)
  have hmem : ∀ (tp : List TopicRec) (x : List Char),
      x ∈ List.insertionSort lexLeP (collectHeader tp) ↔ x ∈ specObservedTags tp :=
    fun tp x => ((List.perm_insertionSort lexLeP (collectHeader tp)).mem_iff).trans
      (mem_collectHeader tp x)
  refine ⟨rfl, hsorted topics, hnodup topics, hmem topics, ?_⟩
  intro topics' hobs
  have hmem2 : ∀ x, x ∈ List.insertionSort lexLeP (collectHeader topics) ↔
      x ∈ List.insertionSort lexLeP (collectHeader topics') :=
    fun x => ((hmem topics x).trans (hobs x)).trans (hmem topics' x).symm
  have hperm : (List.insertionSort lexLeP (collectHeader topics)).Perm
      (List.insertionSort lexLeP (collectHeader topics')) :=
    (List.perm_ext_iff_of_nodup (hnodup topics) (hnodup topics')).mpr hmem2
  have heq := List.eq_of_perm_of_sorted hperm (hsorted topics) (hsorted topics')
  simp only [get_topics_tags_report]
  rw [heq]

/-- Demo topic whose point carries only the marker tag `his`. -/
def demoTopicA : TopicRec :=
  ⟨("A".data), some ⟨("pA".data), ("A".data), ("Number".data), none, ("e".data),
    [("his".data)], []⟩⟩

/-- Demo topic whose point carries only the key-value tag `dis`. -/
def demoTopicB : TopicRec :=
  ⟨("B".data), some ⟨("pB".data), ("B".data), ("Number".data), none, ("e".data),
    [], [(("dis".data), ("Room 1".data))]⟩⟩

/-- Witness for C8: the two processing orders of the two demo topics
produce the same header, which is `topic`, `dis`, `his`. -/
theorem C8_report_header_witness :
    (get_topics_tags_report [demoTopicA, demoTopicB]).2
        = (get_topics_tags_report [demoTopicB, demoTopicA]).2 ∧
    (get_topics_tags_report [demoTopicA, demoTopicB]).2
        = [("topic".data), ("dis".data), ("his".data)] := by
  constructor
  · refine (C8_report_header [demoTopicA, demoTopicB]).2.2.2.2
      [demoTopicB, demoTopicA] ?_
    intro x
    simp [specObservedTags, demoTopicA, demoTopicB]
    tauto
  · decide

/-! ## Claim C10 -/

theorem buildTopicsTags_aux (topics : List TopicRec)
    (acc : List (List Char × TopicTags)) :
    ∀ e ∈ topics.foldl buildTopicsTagsStep acc,
      e ∈ acc ∨ ∃ t ∈ topics, t.topic = e.1 ∧ ∃ p, t.point = some p ∧
        (p.kv_tags ≠ [] ∨ p.m_tags ≠ []) ∧
        e.2 = ⟨if p.kv_tags ≠ [] then some p.kv_tags else none,
               if p.m_tags ≠ [] then some p.m_tags else none⟩ := by
  induction topics generalizing acc with
  | nil => intro e he; left; exact he
  | cons t ts ih =>
      intro e he
      rw [List.foldl_cons] at he
      rcases ih (buildTopicsTagsStep acc t) e he with h | ⟨t', ht', rest⟩
      · cases hp : t.point with
        | none =>
            left
            simpa [buildTopicsTagsStep, hp] using h
        | some p =>
            simp only [buildTopicsTagsStep, hp] at h
            by_cases hcond : p.kv_tags ≠ [] ∨ p.m_tags ≠ []
            · rw [if_pos hcond] at h
              rcases List.mem_append.mp h with h | h
              · left; exact h
              · right
                refine ⟨t, List.mem_cons_self t ts, ?_⟩
                have he2 := List.mem_singleton.mp h
                rw [he2]
                exact ⟨rfl, p, hp, hcond, rfl⟩
            · rw [if_neg hcond] at h
              left; exact h
      · right; exact ⟨t', List.mem_cons_of_mem t ht', rest⟩

theorem buildTopicsTags_entry_tags (topics : List TopicRec) :
    ∀ e ∈ buildTopicsTags topics,
      e.2.kv_tags.getD [] ≠ [] ∨ e.2.m_tags.getD [] ≠ [] := by
  intro e he
  rcases buildTopicsTags_aux topics [] e (by simpa [buildTopicsTags] using he) with
    h | ⟨t', _, _, p, _, hcond, he2⟩
  · cases h
  · rcases hcond with h | h
    · left; rw [he2]; simp [h]
    · right; rw [he2]; simp [h]

theorem buildRow_length (hdr : List (List Char))
    (tts : List (List Char × TopicTags)) (t : TopicRec)
    (hinv : ∀ e ∈ tts, e.2.kv_tags.getD [] ≠ [] ∨ e.2.m_tags.getD [] ≠ []) :
    (buildRow hdr tts t).length = hdr.length + 1 := by
  cases hg : dictGet t.topic tts with
  | none => simp [buildRow, hg]
  | some tt =>
      have htt : tt.kv_tags.getD [] ≠ [] ∨ tt.m_tags.getD [] ≠ [] := by
        unfold dictGet at hg
        rcases hf : tts.find? (fun e => decide (e.1 = t.topic)) with _ | e
        · rw [hf] at hg; cases hg
        · rw [hf] at hg
          have hmem := List.mem_of_find?_eq_some hf
          have he2 : e.2 = tt := by simpa using hg
          rw [← he2]
          exact hinv e hmem
      simp only [buildRow, hg]
      rw [if_pos htt]
      simp

theorem dictGet_none_of_no_tags (topics : List TopicRec) (t : TopicRec)
    (ht : t ∈ topics) (hnodup : (topics.map TopicRec.topic).Nodup)
    (htags : t.point = none ∨
      ∃ p, t.point = some p ∧ p.kv_tags = [] ∧ p.m_tags = []) :
    dictGet t.topic (buildTopicsTags topics) = none := by
  unfold dictGet
  rcases hf : (buildTopicsTags topics).find? (fun e => decide (e.1 = t.topic))
    with _ | e
  · simp [hf]
  · exfalso
    have hmem := List.mem_of_find?_eq_some hf
    have hpred := List.find?_some hf
    simp only [decide_eq_true_iff] at hpred
    rcases buildTopicsTags_aux topics [] e (by simpa [buildTopicsTags] using hmem)
      with h | ⟨t', ht', hteq, p, hp, hcond, _⟩
    · cases h
    · have ht'eq : t' = t :=
        List.inj_on_of_nodup_map hnodup ht' ht (by rw [hteq, hpred])
      subst ht'eq
      rcases htags with h0 | ⟨p', hp', hkv, hm⟩
      · rw [h0] at hp; cases hp
      · rw [hp'] at hp
        have hpp : p' = p := by injection hp
        subst hpp
        rcases hcond with h | h
        · exact h hkv
        · exact h hm

/-- C10: every row returned by `get_topics_tags_report` has exactly as
many entries as the returned header, one per column; and a topic with no
related point, or whose point has no tags, yields its topic name
followed by the empty string in every tag column (stated with unique
topic names, as topic is the key of the `Topic` table). -/
theorem C10_row_shape (topics : List TopicRec) :
    (∀ row ∈ (get_topics_tags_report topics).1,
        row.length = (get_topics_tags_report topics).2.length) ∧
    (∀ t ∈ topics, (topics.map TopicRec.topic).Nodup →
      (t.point = none ∨ ∃ p, t.point = some p ∧ p.kv_tags = [] ∧ p.m_tags = []) →
      (t.topic :: List.replicate ((get_topics_tags_report topics).2.length - 1) [])
        ∈ (get_topics_tags_report topics).1) := by
  have hinv := buildTopicsTags_entry_tags topics
  constructor
  · intro row hrow
    simp only [get_topics_tags_report] at hrow ⊢
    rcases List.mem_map.mp hrow with ⟨t, _, hrt⟩
    rw [← hrt, buildRow_length _ _ _ hinv]
    simp
  · intro t ht hnodup htags
    have hg := dictGet_none_of_no_tags topics t ht hnodup htags
    simp only [get_topics_tags_report]
    have hrow : buildRow (List.insertionSort lexLeP (collectHeader topics))
        (buildTopicsTags topics) t
        = t.topic :: List.replicate
            (List.insertionSort lexLeP (collectHeader topics)).length [] := by
      unfold buildRow
      rw [hg]
    have hlen : (("topic".data) ::
        List.insertionSort lexLeP (collectHeader topics)).length - 1
        = (List.insertionSort lexLeP (collectHeader topics)).length := by
      simp
    rw [hlen, ← hrow]
    exact List.mem_map_of_mem _ ht

/-- Demo topic list for the C10 witness: a topic with no related point
next to a topic carrying a key-value tag. -/
def demoTopics10 : List TopicRec :=
  [⟨("A".data), none⟩,
   ⟨("B".data), some ⟨("pB".data), ("B".data), ("Number".data), none, ("e".data),
      [], [(("dis".data), ("Room 1".data))]⟩⟩]

/-- Witness for C10: the no-point topic `A` yields its name followed by
one empty tag column. -/
theorem C10_row_shape_witness :
    (("A".data) :: List.replicate
        ((get_topics_tags_report demoTopics10).2.length - 1) [])
      ∈ (get_topics_tags_report demoTopics10).1 :=
  (C10_row_shape demoTopics10).2 ⟨("A".data), none⟩ (by decide) (by decide)
    (Or.inl rfl)

end OpentapsSeas
